import Mathlib

/-!
Verification development for the vscode-package-scripts-hover extension.

The development shallowly embeds the TypeScript sources:
- `src/providers/hoverProvider.ts` (flat/legacy documentation provider:
  built-in defaults merged with an optional custom file),
- the nested-documentation provider variant (per-package documentation with
  one-time migration of the legacy flat file shape),
- `src/extension.ts` (documentation regeneration over the workspace's
  package.json files, and the debounced file-watcher cache clear).

JSON values are modelled by the inductive type `Json`; the host's
`JSON.parse` is an external library call and is represented by its outcome
(an `Option Json` / parse outcome field in the environment records).
JavaScript truthiness, object spread, property access and object key
assignment are modelled explicitly on `Json`.
-/

/-- JS value as the embedding observes it. The first six constructors are
JSON values as produced by the host's JSON.parse: objects keep their
fields as an insertion-ordered association list (JSON.parse output has
unique keys; the order is the textual order). The host constructor is a
non-JSON value reached only by reading an inherited Object.prototype
member (constructor, toString, hasOwnProperty, ..., or the __proto__
object): every such value is truthy and has no enumerable own keys. -/
inductive Json where
  | null
  | bool (b : Bool)
  | num (n : Int)
  | str (s : String)
  | arr (elems : List Json)
  | obj (fields : List (String × Json))
  | host (name : String)

/-- First-match lookup of a key in a JS object's field list. On the
unique-key lists JSON.parse produces this is exactly JS property lookup
(`undefined` is `none`). -/
def lookupField : List (String × Json) → String → Option Json
  | [], _ => none
  | (k, v) :: rest, key => if k = key then some v else lookupField rest key

/-- JS object key assignment `o[k] = v`: an existing key keeps its position
and gets the new value, a new key is appended at the end. -/
def setField : List (String × Json) → String → Json → List (String × Json)
  | [], k, v => [(k, v)]
  | (k0, v0) :: rest, k, v =>
      if k0 = k then (k, v) :: rest else (k0, v0) :: setField rest k v

/-- JS truthiness of a JSON value: null, false, 0 and the empty string are
falsy; every array and object is truthy. -/
def Json.truthy : Json → Bool
  | .null => false
  | .bool b => b
  | .num n => decide (n ≠ 0)
  | .str s => decide (s ≠ "")
  | .arr _ => true
  | .obj _ => true
  | .host _ => true

/-- Truthiness of a possibly-undefined JS value (undefined is falsy). -/
def jsTruthyOpt : Option Json → Bool
  | some v => v.truthy
  | none => false

/-- Single-character membership test on a string, the semantics of the
JS calls `key.includes("/")` and `key.includes("\\")` with a
one-character needle. -/
def strHasChar (s : String) (c : Char) : Bool :=
  s.data.any (fun x => x = c)

/-- A string that is a canonical decimal array/string index in the JS
sense ("0", "7", but not "01" or " 7"). -/
def canonicalIndex (k : String) : Option Nat :=
  match k.toNat? with
  | some i => if toString i = k then some i else none
  | none => none

/-- Own-property read `base[k]` on a JS value (`none` is no own
property). Objects look the key up in their fields; strings and arrays
expose `length` and their canonical indices. Own non-enumerable
properties of host function values (length, name) are outside the
model; no claim reads a property of a host value. -/
def Json.getOwnProp : Json → String → Option Json
  | .obj fields, k => lookupField fields k
  | .str s, k =>
      if k = "length" then some (.num (s.length : Int))
      else
        match canonicalIndex k with
        | some i => (s.data.get? i).map (fun c => .str (String.mk [c]))
        | none => none
  | .arr elems, k =>
      if k = "length" then some (.num (elems.length : Int))
      else
        match canonicalIndex k with
        | some i => elems.get? i
        | none => none
  | _, _ => none

/-- The own property names of Object.prototype, the top of every JS
object's prototype chain. For a plain object (the entire prototype chain
of JSON.parse output objects) these are exactly the inherited readable
members. -/
def objectPrototypeKeys : List String :=
  ["constructor", "hasOwnProperty", "isPrototypeOf", "propertyIsEnumerable",
   "toLocaleString", "toString", "valueOf", "__defineGetter__",
   "__defineSetter__", "__lookupGetter__", "__lookupSetter__", "__proto__"]

/-- Full JS property read `base[k]`: the own property when one exists,
otherwise the member inherited from Object.prototype (a truthy host
value) when the key names one. For a plain-object base this is the
complete JS semantics. The intermediate prototypes of the other bases
(Array.prototype, String.prototype, Number.prototype, Function.prototype
members such as map, slice, toFixed or call) are not modelled; every
theorem whose hypotheses could observe that difference restricts the
base to JSON objects or null. A null base throws a TypeError in JS; the
model returns undefined and every call site either guards for null,
short-circuits through optional chaining, or carries a non-null
hypothesis. -/
def Json.getProp (j : Json) (k : String) : Option Json :=
  match j.getOwnProp k with
  | some v => some v
  | none =>
      match j with
      | .null => none
      | _ => if k ∈ objectPrototypeKeys then some (.host k) else none

/-- Optional chaining `base?.[k]`: undefined or null on the left yields
undefined, otherwise an ordinary property read. -/
def jsOptionalChain : Option Json → String → Option Json
  | none, _ => none
  | some .null, _ => none
  | some b, k => b.getProp k

/-- Whether a JSON value is JS null. -/
def Json.isNull : Json → Bool
  | .null => true
  | _ => false

/-- The own enumerable keys of a JSON value, the semantics of
`Object.keys` / `for ... in` on JSON.parse output: an object's field
names, a string's or array's indices, nothing for primitives. -/
def jsKeys : Json → List String
  | .obj fields => fields.map Prod.fst
  | .str s => (List.range s.length).map (fun i => toString i)
  | .arr elems => (List.range elems.length).map (fun i => toString i)
  | _ => []

/-- Fields contributed by spreading a JSON value into an object literal
(`{...v}`): an object's fields, a string's or array's indexed elements,
nothing for the other primitives. -/
def Json.spreadFields : Json → List (String × Json)
  | .obj fields => fields
  | .str s => s.data.enum.map (fun p => (toString p.1, Json.str (String.mk [p.2])))
  | .arr elems => elems.enum.map (fun p => (toString p.1, p.2))
  | _ => []

/-- JS object spread `{...a, ...b}`: start from a's fields and assign
each of b's fields in order (existing keys keep their position, later
values win). -/
def objAssign (a b : List (String × Json)) : List (String × Json) :=
  b.foldl (fun acc p => setField acc p.1 p.2) a

mutual

/-- JS string coercion of a JSON value as a template literal performs it:
strings verbatim, numbers and literals by their textual form, arrays
joined with commas (null elements render empty), objects as
"[object Object]". -/
def jsDisplay : Json → String
  | .null => "null"
  | .bool true => "true"
  | .bool false => "false"
  | .num n => toString n
  | .str s => s
  | .arr elems => String.intercalate "," (jsDisplayList elems)
  | .obj _ => "[object Object]"
  | .host name =>
      if name = "__proto__" then "[object Object]"
      else "function " ++ name ++ "() \x7b [native code] \x7d"

/-- Renders each array element for joining; null renders as the empty
string inside an array, per Array.prototype.toString. -/
def jsDisplayList : List Json → List String
  | [] => []
  | .null :: rest => "" :: jsDisplayList rest
  | x :: rest => jsDisplay x :: jsDisplayList rest

end

/-- Scans a quoted key body: consumes characters up to the next double
quote and returns them together with the remainder after that quote;
fails when no closing quote exists. This is the one-or-more-non-quote
group of the line pattern in hoverProvider.ts. -/
def takeKey : List Char → Option (List Char × List Char)
  | [] => none
  | c :: rest =>
      if c = '"' then some ([], rest)
      else (takeKey rest).map (fun p => (c :: p.1, p.2))

/-- Match of the hover line pattern at one position: an opening quote was
just consumed; a nonempty run of non-quote characters, a closing quote
and a colon must follow (the capture is the run). The pattern has no
other successful backtracking, so this is its exact semantics at a
position. -/
def matchQuotedKeyAt (rest : List Char) : Option (List Char) :=
  match takeKey rest with
  | some (content, ':' :: _) => if content.isEmpty then none else some content
  | _ => none

/-- Leftmost match of the line pattern over the characters of a line, as
the JS regex engine finds it: each position is tried left to right. -/
def firstQuotedKeyAux : List Char → Option (List Char)
  | [] => none
  | c :: rest =>
      match (if c = '"' then matchQuotedKeyAt rest else none) with
      | some content => some content
      | none => firstQuotedKeyAux rest

/-- Capture group of the first match of the hoverProvider.ts line
pattern (a quoted key directly followed by a colon) in a line of text,
the semantics of `line.match` with that pattern. -/
def firstQuotedKey (line : String) : Option String :=
  (firstQuotedKeyAux line.data).map String.mk

/-- The pieces of a VS Code text document that provideHover reads: the
outcome of JSON.parse on its full text (none when the text is not valid
JSON) and its lines (lineAt gives the line's text). -/
structure TextDocument where
  parseResult : Option Json
  lines : List String

/-- The data a produced hover renders: the script's name, the displayed
description and the literal command value read from the document's
scripts object. -/
structure HoverInfo where
  scriptName : String
  description : Json
  command : Json

/-- Host environment of the flat provider's loadCustomDocs: whether
workspace.findFiles finds the configured custom documentation file, and
the outcome of reading and JSON-parsing it (an error models a thrown
read or parse failure). -/
structure LegacyEnv where
  docsFileFound : Bool
  docsFileJson : Except Unit Json

/-- The built-in default documentation table of hoverProvider.ts. -/
def defaultFields : List (String × Json) :=
  [("dev", .str "Runs development server (default port: 5173)"),
   ("build", .str "Creates a production build"),
   ("preview", .str "Previews the built version locally"),
   ("test", .str "Runs tests"),
   ("lint", .str "Runs code linting"),
   ("format", .str "Formats the codebase")]

/-- loadCustomDocs of the flat provider (hoverProvider.ts): returns the
cached table when one is held and no reload is forced; otherwise merges
the defaults with the custom file's parsed content by object spread when
the file is found and parses, and falls back to the defaults when it is
absent or reading/parsing throws. Returns the table together with the
new cache. -/
def loadCustomDocsLegacy (env : LegacyEnv) (cached : Option (List (String × Json)))
    (force : Bool) : List (String × Json) × Option (List (String × Json)) :=
  match cached, force with
  | some d, false => (d, some d)
  | _, _ =>
    match env.docsFileFound, env.docsFileJson with
    | true, .ok customJson =>
        let merged := objAssign defaultFields customJson.spreadFields
        (merged, some merged)
    | true, .error _ => (defaultFields, some defaultFields)
    | false, _ => (defaultFields, some defaultFields)

/-- provideHover of the flat provider (hoverProvider.ts): parse the
document (invalid JSON yields no hover), extract the first quoted key of
the hovered line, reject a key whose value under the document's scripts
object is not truthy, then render name, description (custom or default
docs, with a fallback message) and command. The returned Except is the
promise: `Except.error` models the TypeError thrown when the parsed
document is JSON null (reading .scripts of null). The second component
is the provider's documentation cache after the call. -/
def provideHoverLegacy (env : LegacyEnv) (cached : Option (List (String × Json)))
    (doc : TextDocument) (line : Nat) :
    Except Unit (Option HoverInfo) × Option (List (String × Json)) :=
  match doc.parseResult with
  | none => (.ok none, cached)
  | some packageJson =>
    let lineText := doc.lines.getD line ""
    match firstQuotedKey lineText with
    | none => (.ok none, cached)
    | some scriptName =>
      if packageJson.isNull then (.error (), cached)
      else
        let scriptVal := jsOptionalChain (packageJson.getProp "scripts") scriptName
        if jsTruthyOpt scriptVal then
          let loaded := loadCustomDocsLegacy env cached false
          let command := scriptVal.getD .null
          let description : Json :=
            match (Json.obj loaded.1).getProp scriptName with
            | some v => if v.truthy then v else .str "No description available."
            | none => .str "No description available."
          (.ok (some { scriptName := scriptName, description := description,
                       command := command }), loaded.2)
        else (.ok none, cached)

/-- Legacy-shape detection of the nested provider's loadCustomDocs: the
loaded value is truthy, of object type and not an array, has at least
one key, and no key includes a slash or backslash or equals
"package.json". On JSON values the truthy-object-non-array tests single
out the obj constructor (JS null has object type but is falsy). -/
def looksLikeOldStructure : Json → Bool
  | .obj fields =>
      decide (0 < (fields.map Prod.fst).length) &&
      !((fields.map Prod.fst).any fun key =>
          strHasChar key '/' || strHasChar key '\\' || key = "package.json")
  | _ => false

/-- Outcome of reading and JSON-parsing the documentation file:
the file is absent (FileSystemError FileNotFound), reading or parsing
threw some other error, or a JSON value was obtained. -/
inductive ReadOutcome where
  | notFound
  | failed
  | ok (j : Json)

/-- The file-system state the nested provider's loadCustomDocs touches:
the documentation file (`.vscode/script-docs.json` under the first
workspace folder) and the relative paths of the package.json files that
`findFiles("**/package.json", "**/node_modules/**")` discovers. -/
structure DocsFs where
  docsFile : ReadOutcome
  packageJsonPaths : List String

/-- Migration of a legacy flat documentation object: wrap it under the
key "package.json", then for each discovered package.json path other
than the root one whose entry is not yet truthy, assign an empty
object entry. -/
def migrateStructure (rawDocs : Json) (paths : List String) : List (String × Json) :=
  paths.foldl
    (fun acc rp =>
      if rp ≠ "package.json" && !jsTruthyOpt (lookupField acc rp)
      then setField acc rp (.obj [])
      else acc)
    [("package.json", rawDocs)]

/-- loadCustomDocs of the nested provider: return the cache when truthy;
with no workspace return null leaving the cache; otherwise read the
documentation file. A missing file or failed read/parse nulls the cache
and returns null. A legacy-shaped object is migrated and written back
(the write is modelled as the file now parsing to the migrated object);
any other object is used as is; a non-object value throws, which the
catch turns into the nulled-cache error path. Returns (result, file
system after, cache after). -/
def loadCustomDocsNested (workspaceExists : Bool) (fs : DocsFs)
    (cached : Option Json) : Option Json × DocsFs × Option Json :=
  if jsTruthyOpt cached then (cached, fs, cached)
  else if !workspaceExists then (none, fs, cached)
  else
    match fs.docsFile with
    | .notFound => (none, fs, none)
    | .failed => (none, fs, none)
    | .ok rawDocs =>
      if looksLikeOldStructure rawDocs then
        let migrated := migrateStructure rawDocs fs.packageJsonPaths
        (some (.obj migrated), { fs with docsFile := .ok (.obj migrated) },
         some (.obj migrated))
      else
        match rawDocs with
        | .obj fields => (some (.obj fields), fs, some (.obj fields))
        | _ => (none, fs, none)

/-- Whether a read outcome makes the nested provider's load fail (missing
file, read/parse error, or a parsed value that is not a JSON object and
therefore throws the invalid-format error). -/
def nestedLoadFails : ReadOutcome → Bool
  | .notFound => true
  | .failed => true
  | .ok (.obj _) => false
  | .ok _ => true

/-- clearCache of the provider: the cached documentation is set to null.
The reload command and the debounced watcher callback both call it. -/
def clearCache (_cached : Option Json) : Option Json :=
  none

/-- The apostrophe character, used by the synthesized description
template of extension.ts. -/
def squote : String :=
  String.mk [Char.ofNat 39]

/-- The templated description extension.ts synthesizes for a script with
no existing documentation. -/
def scriptTemplate (scriptName relativePath : String) (command : Json) : String :=
  "Description for " ++ squote ++ scriptName ++ squote ++ " script in " ++
    relativePath ++ ": " ++ jsDisplay command

/-- One workspace package.json as the regeneration loop of extension.ts
sees it: its workspace-relative path and the outcome of reading and
parsing it (the error carries the message used in the failure marker). -/
structure PkgFile where
  relativePath : String
  content : Except String Json

/-- JS property assignment `o[k] = v` one level inside a documentation
entry. On a non-object entry the assignment has no observable effect in
the model (the verified claims never reach that case, which strict-mode
JS would reject). -/
def setInner (entry : Json) (k : String) (v : Json) : Json :=
  match entry with
  | .obj fields => .obj (setField fields k v)
  | other => other

/-- The description the regeneration loop stores for one script:
the existing description when it is present and truthy, otherwise the
synthesized template naming the script, the path and the command. -/
def descFor (existingDocs : Json) (relativePath : String) (scripts : Json)
    (name : String) : Json :=
  match jsOptionalChain (existingDocs.getProp relativePath) name with
  | some d =>
      if d.truthy then d
      else .str (scriptTemplate name relativePath ((scripts.getProp name).getD .null))
  | none => .str (scriptTemplate name relativePath ((scripts.getProp name).getD .null))

/-- One iteration of the regeneration loop of
updateScriptDocsForWorkspace over a package.json file: a failed read
keeps the existing entry when truthy or stores an error marker; a parsed
file initializes its entry, then either fills one description per script
key (existing kept when truthy, template otherwise) or, with no truthy
scripts value, keeps the truthy existing entry or stores an empty one. -/
def processFile (existingDocs : Json) (newDocs : List (String × Json))
    (f : PkgFile) : List (String × Json) :=
  match f.content with
  | .error msg =>
      match existingDocs.getProp f.relativePath with
      | some e =>
          if e.truthy then setField newDocs f.relativePath e
          else setField newDocs f.relativePath
            (.obj [("__error__", .str ("Failed to process: " ++ msg))])
      | none => setField newDocs f.relativePath
          (.obj [("__error__", .str ("Failed to process: " ++ msg))])
  | .ok packageJson =>
      let cur := lookupField newDocs f.relativePath
      let init : Json :=
        match cur with
        | some v => if v.truthy then v else .obj []
        | none => .obj []
      let nd1 := setField newDocs f.relativePath init
      let scriptsOpt := packageJson.getProp "scripts"
      if jsTruthyOpt scriptsOpt then
        let scripts := scriptsOpt.getD .null
        (jsKeys scripts).foldl
          (fun nd name =>
            setField nd f.relativePath
              (setInner ((lookupField nd f.relativePath).getD .null) name
                (descFor existingDocs f.relativePath scripts name)))
          nd1
      else
        match existingDocs.getProp f.relativePath with
        | some e =>
            if e.truthy then setField nd1 f.relativePath e
            else setField nd1 f.relativePath (.obj [])
        | none => setField nd1 f.relativePath (.obj [])

/-- The final pass of updateScriptDocsForWorkspace: every key of the
existing documentation whose entry is not yet truthy in the regenerated
object is carried over. -/
def mergeMissingExisting (existingDocs : Json)
    (newDocs : List (String × Json)) : List (String × Json) :=
  (jsKeys existingDocs).foldl
    (fun nd k =>
      if jsTruthyOpt (lookupField nd k) then nd
      else setField nd k ((existingDocs.getProp k).getD .null))
    newDocs

/-- Core of updateScriptDocsForWorkspace (extension.ts): regenerate the
documentation object from the discovered package.json files, starting
from an empty object and folding the per-file loop body, then carry over
existing packages the scan no longer finds. Reading the prior file and
writing the result back are modelled by the existingDocs argument and
the returned object. -/
def updateScriptDocsForWorkspace (existingDocs : Json)
    (files : List PkgFile) : List (String × Json) :=
  mergeMissingExisting existingDocs (files.foldl (processFile existingDocs) [])

/-- The entry the regeneration loop leaves for one package.json file,
assuming no other discovered file shares its relative path (findFiles
returns distinct paths). -/
def entryForFile (existingDocs : Json) (f : PkgFile) : Json :=
  match f.content with
  | .error msg =>
      match existingDocs.getProp f.relativePath with
      | some e =>
          if e.truthy then e
          else .obj [("__error__", .str ("Failed to process: " ++ msg))]
      | none => .obj [("__error__", .str ("Failed to process: " ++ msg))]
  | .ok packageJson =>
      let scriptsOpt := packageJson.getProp "scripts"
      if jsTruthyOpt scriptsOpt then
        let scripts := scriptsOpt.getD .null
        .obj ((jsKeys scripts).foldl
          (fun fields name =>
            setField fields name (descFor existingDocs f.relativePath scripts name))
          [])
      else
        match existingDocs.getProp f.relativePath with
        | some e => if e.truthy then e else .obj []
        | none => .obj []

/-- Lookup of one script's stored description in a nested documentation
object: the package entry must be an object holding the script key. -/
def lookup2 (docs : List (String × Json)) (relativePath name : String) : Option Json :=
  match lookupField docs relativePath with
  | some (.obj fields) => lookupField fields name
  | _ => none

/-- One raw watcher event reaching the debounced callback of
extension.ts at a given time: a pending timer that has already expired
has fired (running the wrapped cache clear), and the event always arms a
fresh timer for `wait` milliseconds. State: (pending deadline, number of
times the wrapped function ran). -/
def debounceStep (wait : Nat) (st : Option Nat × Nat) (t : Nat) : Option Nat × Nat :=
  match st.1 with
  | some d => if d ≤ t then (some (t + wait), st.2 + 1) else (some (t + wait), st.2)
  | none => (some (t + wait), st.2)

/-- Runs the debounced callback over a time-ordered list of raw event
times and lets any still-pending timer fire at the end: returns how many
times the wrapped function (the cache clear plus its notification) ran,
and the deadline of the final timer if one was still pending when the
last event was processed. -/
def debounceRun (wait : Nat) (calls : List Nat) : Nat × Option Nat :=
  let st := calls.foldl (debounceStep wait) (none, 0)
  match st.1 with
  | some d => (st.2 + 1, some d)
  | none => (st.2, none)

/-- The legacy ("old/flat") documentation shape exactly as the
specification words it: a non-array object with at least one key, none
of whose keys contains a path separator (slash or backslash) or equals
the literal string "package.json". -/
def IsLegacyShapeSpec (j : Json) : Prop :=
  ∃ fields, j = Json.obj fields ∧ fields ≠ [] ∧
    ∀ p ∈ fields,
      ¬(strHasChar p.1 '/' = true ∨ strHasChar p.1 '\\' = true ∨ p.1 = "package.json")

theorem string_mk_data (s : String) : String.mk s.data = s := rfl

theorem str_data_append (s t : String) : (s ++ t).data = s.data ++ t.data := rfl

theorem data_ne_nil {s : String} (h : s ≠ "") : s.data ≠ [] := by
  intro hd
  exact h (by cases s with | mk d => cases hd; rfl)

theorem lookupField_setField (l : List (String × Json)) (k : String) (v : Json)
    (k2 : String) :
    lookupField (setField l k v) k2 = if k2 = k then some v else lookupField l k2 := by
  induction l with
  | nil =>
      by_cases h : k2 = k
      · subst h; simp [setField, lookupField]
      · simp [setField, lookupField, h, Ne.symm h]
  | cons p rest ih =>
      obtain ⟨k0, v0⟩ := p
      by_cases h0 : k0 = k
      · subst h0
        by_cases h : k2 = k0
        · subst h; simp [setField, lookupField]
        · simp [setField, lookupField, h, Ne.symm h]
      · by_cases h : k2 = k
        · subst h
          simp [setField, lookupField, h0, Ne.symm h0, ih]
        · by_cases h2 : k0 = k2
          · subst h2
            simp [setField, lookupField, h0, ih, h]
          · simp [setField, lookupField, h0, h2, ih, h]

theorem setField_of_lookup_none (l : List (String × Json)) (k : String) (v : Json)
    (h : lookupField l k = none) : setField l k v = l ++ [(k, v)] := by
  induction l with
  | nil => rfl
  | cons p rest ih =>
      obtain ⟨k0, v0⟩ := p
      by_cases h0 : k0 = k
      · subst h0
        simp [lookupField] at h
      · simp [lookupField, h0] at h
        simp [setField, h0, ih h]

theorem lookupField_mem {l : List (String × Json)} {k : String} {v : Json}
    (h : lookupField l k = some v) : (k, v) ∈ l := by
  induction l with
  | nil => simp [lookupField] at h
  | cons p rest ih =>
      obtain ⟨k0, v0⟩ := p
      by_cases h0 : k0 = k
      · subst h0
        simp [lookupField] at h
        simp [h]
      · simp [lookupField, h0] at h
        exact List.mem_cons_of_mem _ (ih h)

theorem lookupField_eq_none_iff (l : List (String × Json)) (k : String) :
    lookupField l k = none ↔ k ∉ l.map Prod.fst := by
  induction l with
  | nil => simp [lookupField]
  | cons p rest ih =>
      obtain ⟨k0, v0⟩ := p
      by_cases h0 : k0 = k
      · subst h0
        simp [lookupField]
      · simp [lookupField, h0, ih, Ne.symm h0]

theorem mem_keys_of_lookupField {l : List (String × Json)} {k : String} {v : Json}
    (h : lookupField l k = some v) : k ∈ l.map Prod.fst := by
  by_contra hk
  rw [← lookupField_eq_none_iff] at hk
  rw [hk] at h
  exact Option.noConfusion h

theorem lookupField_objAssign (a b : List (String × Json)) (k : String)
    (hb : (b.map Prod.fst).Nodup) :
    lookupField (objAssign a b) k =
      match lookupField b k with
      | some v => some v
      | none => lookupField a k := by
  induction b generalizing a with
  | nil => simp [objAssign, lookupField]
  | cons p rest ih =>
      obtain ⟨k0, v0⟩ := p
      simp only [List.map_cons, List.nodup_cons] at hb
      have step : objAssign a ((k0, v0) :: rest) = objAssign (setField a k0 v0) rest := by
        simp [objAssign]
      rw [step, ih _ hb.2]
      by_cases h : k = k0
      · subst h
        have hnone : lookupField rest k = none := by
          rw [lookupField_eq_none_iff]; exact hb.1
        simp [hnone, lookupField, lookupField_setField]
      · simp [lookupField, Ne.symm h, lookupField_setField, h]

theorem takeKey_spec (content rest : List Char)
    (h : ∀ c ∈ content, c ≠ '"') :
    takeKey (content ++ '"' :: rest) = some (content, rest) := by
  induction content with
  | nil => simp [takeKey]
  | cons c cs ih =>
      have hc : c ≠ '"' := h c (List.mem_cons_self c cs)
      have ih2 := ih (fun x hx => h x (List.mem_cons_of_mem _ hx))
      simp [takeKey, hc, ih2]

theorem firstQuotedKeyAux_append (pre l : List Char)
    (h : ∀ c ∈ pre, c ≠ '"') :
    firstQuotedKeyAux (pre ++ l) = firstQuotedKeyAux l := by
  induction pre with
  | nil => rfl
  | cons c cs ih =>
      have hc : c ≠ '"' := h c (List.mem_cons_self c cs)
      have ih2 := ih (fun x hx => h x (List.mem_cons_of_mem _ hx))
      simp [firstQuotedKeyAux, hc, ih2]

theorem firstQuotedKeyAux_match (content rest : List Char)
    (hne : content ≠ []) (h : ∀ c ∈ content, c ≠ '"') :
    firstQuotedKeyAux ('"' :: (content ++ '"' :: ':' :: rest)) = some content := by
  have hm : matchQuotedKeyAt (content ++ '"' :: ':' :: rest) = some content := by
    simp [matchQuotedKeyAt, takeKey_spec _ _ h, List.isEmpty_iff, hne]
  simp [firstQuotedKeyAux, hm]

theorem getProp_isNull_false {pj : Json} {k : String} {v : Json}
    (h : pj.getProp k = some v) : pj.isNull = false := by
  cases pj <;> simp_all [Json.getProp, Json.getOwnProp, Json.isNull]

theorem getProp_obj_own {s : List (String × Json)} {k : String} {v : Json}
    (h : lookupField s k = some v) : (Json.obj s).getProp k = some v := by
  simp [Json.getProp, Json.getOwnProp, h]

theorem getProp_obj_miss {s : List (String × Json)} {k : String}
    (h1 : lookupField s k = none) (h2 : k ∉ objectPrototypeKeys) :
    (Json.obj s).getProp k = none := by
  simp [Json.getProp, Json.getOwnProp, h1, h2]

theorem looksLike_cons_pj (v : Json) (rest : List (String × Json)) :
    looksLikeOldStructure (.obj (("package.json", v) :: rest)) = false := by
  simp [looksLikeOldStructure]

theorem foldSet_lookup_not_mem (names : List String) (g : String → Json)
    (init : List (String × Json)) (name : String) (h : name ∉ names) :
    lookupField (names.foldl (fun fl n => setField fl n (g n)) init) name =
      lookupField init name := by
  induction names generalizing init with
  | nil => rfl
  | cons n ns ih =>
      simp only [List.mem_cons, not_or] at h
      simp only [List.foldl_cons]
      rw [ih _ h.2, lookupField_setField]
      simp [h.1]

theorem foldSet_lookup_mem (names : List String) (g : String → Json)
    (init : List (String × Json)) (name : String) (h : name ∈ names) :
    lookupField (names.foldl (fun fl n => setField fl n (g n)) init) name =
      some (g name) := by
  induction names generalizing init with
  | nil => simp at h
  | cons n ns ih =>
      simp only [List.foldl_cons]
      by_cases hm : name ∈ ns
      · exact ih _ hm
      · have hn : name = n := by
          rcases List.mem_cons.mp h with h1 | h2
          · exact h1
          · exact absurd h2 hm
        subst hn
        rw [foldSet_lookup_not_mem _ _ _ _ hm, lookupField_setField]
        simp

theorem innerFold_lookup (names : List String) (ex : Json) (rp : String)
    (scripts : Json) (nd acc : List (String × Json))
    (h : lookupField nd rp = some (.obj acc)) :
    lookupField
      (names.foldl
        (fun nd name =>
          setField nd rp
            (setInner ((lookupField nd rp).getD .null) name
              (descFor ex rp scripts name)))
        nd) rp =
      some (.obj (names.foldl
        (fun fl name => setField fl name (descFor ex rp scripts name)) acc)) := by
  induction names generalizing nd acc with
  | nil => simpa using h
  | cons n ns ih =>
      simp only [List.foldl_cons]
      apply ih
      rw [lookupField_setField]
      simp [h, setInner]

theorem innerFold_other (names : List String) (ex : Json) (rp : String)
    (scripts : Json) (nd : List (String × Json)) (k : String) (hk : k ≠ rp) :
    lookupField
      (names.foldl
        (fun nd name =>
          setField nd rp
            (setInner ((lookupField nd rp).getD .null) name
              (descFor ex rp scripts name)))
        nd) k = lookupField nd k := by
  induction names generalizing nd with
  | nil => rfl
  | cons n ns ih =>
      simp only [List.foldl_cons]
      rw [ih, lookupField_setField]
      simp [hk]

theorem processFile_lookup_other (ex : Json) (nd : List (String × Json))
    (f : PkgFile) (k : String) (hk : k ≠ f.relativePath) :
    lookupField (processFile ex nd f) k = lookupField nd k := by
  cases hc : f.content with
  | error msg =>
      simp only [processFile, hc]
      cases ex.getProp f.relativePath with
      | none => rw [lookupField_setField]; simp [hk]
      | some e =>
          by_cases he : e.truthy <;>
            simp only [he, if_true, if_false, Bool.false_eq_true] <;>
            (rw [lookupField_setField]; simp [hk])
  | ok pj =>
      simp only [processFile, hc]
      by_cases hs : jsTruthyOpt (pj.getProp "scripts")
      · simp only [hs, if_true]
        rw [innerFold_other _ _ _ _ _ _ hk, lookupField_setField]
        simp [hk]
      · simp only [hs, Bool.false_eq_true, if_false]
        cases ex.getProp f.relativePath with
        | none =>
            rw [lookupField_setField]
            simp only [hk, if_false]
            rw [lookupField_setField]
            simp [hk]
        | some e =>
            by_cases he : e.truthy <;>
              simp only [he, if_true, if_false, Bool.false_eq_true] <;>
              (rw [lookupField_setField]
               simp only [hk, if_false]
               rw [lookupField_setField]
               simp [hk])

theorem processFile_lookup_self (ex : Json) (nd : List (String × Json))
    (f : PkgFile) (h : lookupField nd f.relativePath = none) :
    lookupField (processFile ex nd f) f.relativePath = some (entryForFile ex f) := by
  cases hc : f.content with
  | error msg =>
      simp only [processFile, entryForFile, hc]
      cases ex.getProp f.relativePath with
      | none => rw [lookupField_setField]; simp
      | some e =>
          by_cases he : e.truthy <;>
            simp only [he, if_true, if_false, Bool.false_eq_true] <;>
            (rw [lookupField_setField]; simp)
  | ok pj =>
      simp only [processFile, entryForFile, hc, h]
      by_cases hs : jsTruthyOpt (pj.getProp "scripts")
      · simp only [hs, if_true]
        rw [innerFold_lookup _ _ _ _ _ []]
        rw [lookupField_setField]
        simp
      · simp only [hs, Bool.false_eq_true, if_false]
        cases ex.getProp f.relativePath with
        | none => rw [lookupField_setField]; simp
        | some e =>
            by_cases he : e.truthy <;>
              simp only [he, if_true, if_false, Bool.false_eq_true] <;>
              (rw [lookupField_setField]; simp)

theorem updateLoop_preserve (ex : Json) (files : List PkgFile)
    (nd : List (String × Json)) (k : String)
    (hk : ∀ f ∈ files, f.relativePath ≠ k) :
    lookupField (files.foldl (processFile ex) nd) k = lookupField nd k := by
  induction files generalizing nd with
  | nil => rfl
  | cons g rest ih =>
      simp only [List.foldl_cons]
      rw [ih _ (fun f hf => hk f (List.mem_cons_of_mem _ hf))]
      exact processFile_lookup_other _ _ _ _
        (Ne.symm (hk g (List.mem_cons_self g rest)))

theorem updateLoop_lookup_aux (ex : Json) (files : List PkgFile)
    (nd : List (String × Json)) (f : PkgFile)
    (hnodup : (files.map PkgFile.relativePath).Nodup) (hf : f ∈ files)
    (h : lookupField nd f.relativePath = none) :
    lookupField (files.foldl (processFile ex) nd) f.relativePath =
      some (entryForFile ex f) := by
  induction files generalizing nd with
  | nil => simp at hf
  | cons g rest ih =>
      simp only [List.map_cons, List.nodup_cons] at hnodup
      simp only [List.foldl_cons]
      rcases List.mem_cons.mp hf with hfg | hfr
      · subst hfg
        rw [updateLoop_preserve]
        · exact processFile_lookup_self _ _ _ h
        · intro f2 hf2 he
          exact hnodup.1 (he ▸ List.mem_map_of_mem PkgFile.relativePath hf2)
      · have hne : f.relativePath ≠ g.relativePath := by
          intro he
          exact hnodup.1 (he ▸ List.mem_map_of_mem PkgFile.relativePath hfr)
        apply ih _ hnodup.2 hfr
        rw [processFile_lookup_other _ _ _ _ hne]
        exact h

theorem mergeFold_preserve (ks : List String) (ex : Json)
    (nd : List (String × Json)) (k : String)
    (h : jsTruthyOpt (lookupField nd k) = true) :
    lookupField
      (ks.foldl
        (fun nd k2 =>
          if jsTruthyOpt (lookupField nd k2) then nd
          else setField nd k2 ((ex.getProp k2).getD .null))
        nd) k = lookupField nd k := by
  induction ks generalizing nd with
  | nil => rfl
  | cons k0 ks ih =>
      simp only [List.foldl_cons]
      by_cases ht : jsTruthyOpt (lookupField nd k0)
      · simp only [ht, if_true]
        exact ih _ h
      · simp only [ht, Bool.false_eq_true, if_false]
        have hne : k ≠ k0 := by
          intro he
          rw [he] at h
          exact ht h
        have hl : lookupField (setField nd k0 ((ex.getProp k0).getD .null)) k =
            lookupField nd k := by
          rw [lookupField_setField]; simp [hne]
        rw [ih _ (by rw [hl]; exact h), hl]

theorem mergeMissing_preserve (ex : Json) (nd : List (String × Json)) (k : String)
    (h : jsTruthyOpt (lookupField nd k) = true) :
    lookupField (mergeMissingExisting ex nd) k = lookupField nd k :=
  mergeFold_preserve (jsKeys ex) ex nd k h

theorem migrateFold_preserve (ps : List String) (acc : List (String × Json))
    (rp : String) (h : lookupField acc rp ≠ none) :
    lookupField
      (ps.foldl
        (fun acc rp =>
          if rp ≠ "package.json" && !jsTruthyOpt (lookupField acc rp)
          then setField acc rp (.obj [])
          else acc)
        acc) rp ≠ none := by
  induction ps generalizing acc with
  | nil => exact h
  | cons q ps ih =>
      simp only [List.foldl_cons]
      apply ih
      by_cases hc : (decide (q ≠ "package.json") && !jsTruthyOpt (lookupField acc q)) = true
      · simp only [hc, if_true]
        rw [lookupField_setField]
        by_cases he : rp = q
        · simp [he]
        · simp only [he, if_false]
          exact h
      · simp only [hc, if_false]
        exact h

theorem migrateFold_mem (ps : List String) (acc : List (String × Json))
    (rp : String) (hrp : rp ∈ ps) (hne : rp ≠ "package.json") :
    lookupField
      (ps.foldl
        (fun acc rp =>
          if rp ≠ "package.json" && !jsTruthyOpt (lookupField acc rp)
          then setField acc rp (.obj [])
          else acc)
        acc) rp ≠ none := by
  induction ps generalizing acc with
  | nil => simp at hrp
  | cons q ps ih =>
      simp only [List.foldl_cons]
      by_cases hmem : rp ∈ ps
      · exact ih _ hmem
      · have hq : rp = q := by
          rcases List.mem_cons.mp hrp with h1 | h2
          · exact h1
          · exact absurd h2 hmem
        subst hq
        cases hc : (decide (rp ≠ "package.json") && !jsTruthyOpt (lookupField acc rp)) with
        | true =>
            rw [if_pos rfl]
            apply migrateFold_preserve
            rw [lookupField_setField]
            simp
        | false =>
            rw [if_neg (by simp)]
            apply migrateFold_preserve
            rcases Bool.and_eq_false_iff.mp hc with h1 | h1
            · rw [decide_eq_false_iff_not] at h1
              exact absurd hne h1
            · have h2 : jsTruthyOpt (lookupField acc rp) = true := by
                cases hj : jsTruthyOpt (lookupField acc rp)
                · rw [hj] at h1; simp at h1
                · rfl
              intro hnone
              rw [hnone] at h2
              simp [jsTruthyOpt] at h2

theorem migrateFold_shape (ps : List String) (raw : Json)
    (tail : List (String × Json)) (hinv : ∀ p ∈ tail, p.2 = Json.obj []) :
    ∃ tail2,
      (ps.foldl
        (fun acc rp =>
          if rp ≠ "package.json" && !jsTruthyOpt (lookupField acc rp)
          then setField acc rp (.obj [])
          else acc)
        (("package.json", raw) :: tail)) = ("package.json", raw) :: tail2 ∧
      ∀ p ∈ tail2, p.2 = Json.obj [] ∧
        (p ∈ tail ∨ (p.1 ∈ ps ∧ p.1 ≠ "package.json")) := by
  induction ps generalizing tail with
  | nil =>
      exact ⟨tail, rfl, fun p hp => ⟨hinv p hp, Or.inl hp⟩⟩
  | cons q ps ih =>
      simp only [List.foldl_cons]
      by_cases hq : q = "package.json"
      · subst hq
        have hcond : (decide ("package.json" ≠ "package.json") &&
            !jsTruthyOpt (lookupField (("package.json", raw) :: tail) "package.json")) =
              false := by simp
        rw [hcond]
        simp only [Bool.false_eq_true, if_false]
        obtain ⟨tail2, heq, hprops⟩ := ih tail hinv
        refine ⟨tail2, heq, fun p hp => ?_⟩
        obtain ⟨h1, h2⟩ := hprops p hp
        exact ⟨h1, h2.imp id (fun h => ⟨List.mem_cons_of_mem _ h.1, h.2⟩)⟩
      · have hlq : lookupField (("package.json", raw) :: tail) q =
            lookupField tail q := by
          simp [lookupField, Ne.symm hq]
        cases hl : lookupField tail q with
        | some v =>
            have hv : v = Json.obj [] := hinv (q, v) (lookupField_mem hl)
            have hcond : (decide (q ≠ "package.json") &&
                !jsTruthyOpt (lookupField (("package.json", raw) :: tail) q)) = false := by
              rw [hlq, hl, hv]
              simp [jsTruthyOpt, Json.truthy]
            simp only [hcond, Bool.false_eq_true, if_false]
            obtain ⟨tail2, heq, hprops⟩ := ih tail hinv
            refine ⟨tail2, heq, fun p hp => ?_⟩
            obtain ⟨h1, h2⟩ := hprops p hp
            exact ⟨h1, h2.imp id (fun h => ⟨List.mem_cons_of_mem _ h.1, h.2⟩)⟩
        | none =>
            have hcond : (decide (q ≠ "package.json") &&
                !jsTruthyOpt (lookupField (("package.json", raw) :: tail) q)) = true := by
              rw [hlq, hl]
              simp [jsTruthyOpt, hq]
            simp only [hcond, if_true]
            have hset : setField (("package.json", raw) :: tail) q (.obj []) =
                ("package.json", raw) :: (tail ++ [(q, Json.obj [])]) := by
              simp only [setField, Ne.symm hq, if_false]
              rw [setField_of_lookup_none _ _ _ hl]
            rw [hset]
            have hinv2 : ∀ p ∈ tail ++ [(q, Json.obj [])], p.2 = Json.obj [] := by
              intro p hp
              rcases List.mem_append.mp hp with h1 | h2
              · exact hinv p h1
              · simp at h2
                rw [h2]
            obtain ⟨tail2, heq, hprops⟩ := ih _ hinv2
            refine ⟨tail2, heq, fun p hp => ?_⟩
            obtain ⟨h1, h2⟩ := hprops p hp
            refine ⟨h1, ?_⟩
            rcases h2 with h2 | h2
            · rcases List.mem_append.mp h2 with h3 | h3
              · exact Or.inl h3
              · simp at h3
                refine Or.inr ⟨?_, ?_⟩
                · rw [h3]; exact List.mem_cons_self q ps
                · rw [h3]; exact hq
            · exact Or.inr ⟨List.mem_cons_of_mem _ h2.1, h2.2⟩

theorem debounce_aux (rest : List Nat) (t c : Nat)
    (h : List.Chain (fun a b => b < a + 500) t rest) :
    rest.foldl (debounceStep 500) (some (t + 500), c) =
      (some (rest.getLastD t + 500), c) := by
  induction rest generalizing t with
  | nil => rfl
  | cons b bs ih =>
      rw [List.chain_cons] at h
      have hb : ¬(t + 500 ≤ b) := Nat.not_le.mpr h.1
      simp only [List.foldl_cons, debounceStep, hb, if_false, List.getLastD_cons]
      exact ih b h.2

/-- C6: for every document text that is not valid JSON (JSON.parse fails),
provideHover returns null at every hover position, for every docs
environment and cache state; the failure is caught, so nothing escapes
the resolver and the cache is untouched. -/
theorem C6_invalid_json_null (env : LegacyEnv)
    (cached : Option (List (String × Json))) (doc : TextDocument) (pos : Nat)
    (h : doc.parseResult = none) :
    provideHoverLegacy env cached doc pos = (.ok none, cached) := by
  simp [provideHoverLegacy, h]

/-- Witness for C6 at a concrete input: a document whose text is not
valid JSON yields null without error and leaves the cache empty. -/
theorem C6_invalid_json_null_witness :
    provideHoverLegacy ⟨false, Except.error ()⟩ none
      ⟨none, ["this is not json"]⟩ 0 = (.ok none, none) :=
  C6_invalid_json_null ⟨false, Except.error ()⟩ none ⟨none, ["this is not json"]⟩ 0 rfl

/-- C8: for a burst of watcher events on the documentation file in which
every event falls within 500 ms of the previous one, the debounced
callback fires the wrapped cache clear (with its notification) exactly
once, and it fires at the deadline armed by the last event. -/
theorem C8_debounce_once (t0 : Nat) (rest : List Nat)
    (h : List.Chain (fun a b => b < a + 500) t0 rest) :
    debounceRun 500 (t0 :: rest) = (1, some (rest.getLastD t0 + 500)) := by
  simp only [debounceRun, List.foldl_cons]
  have h0 : debounceStep 500 (none, 0) t0 = (some (t0 + 500), 0) := rfl
  rw [h0, debounce_aux rest t0 0 h]

/-- Witness for C8: three rapid events at 0, 100 and 200 ms produce
exactly one clear, firing at 700 ms. -/
theorem C8_debounce_once_witness :
    debounceRun 500 [0, 100, 200] = (1, some 700) :=
  C8_debounce_once 0 [100, 200]
    (List.Chain.cons (by decide) (List.Chain.cons (by decide) List.Chain.nil))

/-- C9: a loaded documentation value is classified as legacy (old/flat)
exactly when it is a non-array object with at least one key, none of
whose keys contains a path separator or equals "package.json". -/
theorem C9_legacy_detection (j : Json) :
    looksLikeOldStructure j = true ↔ IsLegacyShapeSpec j := by
  cases j with
  | obj fields =>
      constructor
      · intro h
        simp only [looksLikeOldStructure, Bool.and_eq_true, decide_eq_true_eq,
          List.length_map, List.length_pos, Bool.not_eq_true',
          List.any_eq_false, List.mem_map] at h
        refine ⟨fields, rfl, h.1, fun p hp => ?_⟩
        have h2 : (strHasChar p.1 '/' || strHasChar p.1 '\\' ||
            decide (p.1 = "package.json")) = false :=
          Bool.eq_false_iff.mpr (h.2 p.1 ⟨p, hp, rfl⟩)
        rw [Bool.or_eq_false_iff, Bool.or_eq_false_iff] at h2
        intro hcon
        rcases hcon with h3 | h3 | h3
        · rw [h2.1.1] at h3; exact Bool.noConfusion h3
        · rw [h2.1.2] at h3; exact Bool.noConfusion h3
        · have h4 := h2.2
          rw [decide_eq_false_iff_not] at h4
          exact h4 h3
      · rintro ⟨fields2, heq, hne, hkeys⟩
        injection heq with hf
        subst hf
        simp only [looksLikeOldStructure, Bool.and_eq_true, decide_eq_true_eq,
          List.length_map, List.length_pos, Bool.not_eq_true',
          List.any_eq_false, List.mem_map]
        refine ⟨hne, ?_⟩
        rintro x ⟨p, hp, rfl⟩
        have hk := hkeys p hp
        push_neg at hk
        apply Bool.eq_false_iff.mp
        rw [Bool.or_eq_false_iff, Bool.or_eq_false_iff]
        refine ⟨⟨Bool.eq_false_iff.mpr hk.1, Bool.eq_false_iff.mpr hk.2.1⟩, ?_⟩
        rw [decide_eq_false_iff_not]
        exact hk.2.2
  | null => simp [looksLikeOldStructure, IsLegacyShapeSpec]
  | bool b => simp [looksLikeOldStructure, IsLegacyShapeSpec]
  | num n => simp [looksLikeOldStructure, IsLegacyShapeSpec]
  | str s => simp [looksLikeOldStructure, IsLegacyShapeSpec]
  | arr elems => simp [looksLikeOldStructure, IsLegacyShapeSpec]
  | host name => simp [looksLikeOldStructure, IsLegacyShapeSpec]

/-- C5: hovering over the line with the test script in a valid
package.json whose scripts holds test mapped to jest, with no custom
documentation file present (and a fresh cache), yields the built-in
default description for test and the command jest. -/
theorem C5_default_test_docs (env : LegacyEnv) (doc : TextDocument) (pos : Nat)
    (pj : Json) (s : List (String × Json))
    (henv : env.docsFileFound = false)
    (hdoc : doc.parseResult = some pj)
    (hs : pj.getProp "scripts" = some (.obj s))
    (ht : lookupField s "test" = some (.str "jest"))
    (hline : doc.lines.getD pos "" = "\"test\": \"jest\"") :
    (provideHoverLegacy env none doc pos).1 =
      .ok (some { scriptName := "test", description := .str "Runs tests",
                  command := .str "jest" }) := by
  have hnull : pj.isNull = false := getProp_isNull_false hs
  have hkey : firstQuotedKey "\"test\": \"jest\"" = some "test" := rfl
  have hload : loadCustomDocsLegacy env none false = (defaultFields, some defaultFields) := by
    obtain ⟨found, json⟩ := env
    simp only [LegacyEnv.docsFileFound] at henv
    subst henv
    cases json <;> rfl
  have htr : jsTruthyOpt (some (Json.str "jest")) = true := rfl
  have hdesc : (Json.obj defaultFields).getProp "test" = some (.str "Runs tests") := rfl
  have hchain : jsOptionalChain (pj.getProp "scripts") "test" = some (Json.str "jest") := by
    rw [hs]
    exact getProp_obj_own ht
  simp only [provideHoverLegacy, hdoc, hline, hkey, hnull, Bool.false_eq_true,
    if_false, hchain, htr, if_true, hload, hdesc]
  rfl

/-- Witness for C5 at a concrete input: a one-line document listing only
the test script, no custom file: the hover shows "Runs tests" and jest. -/
theorem C5_default_test_docs_witness :
    (provideHoverLegacy ⟨false, Except.error ()⟩ none
      ⟨some (.obj [("scripts", .obj [("test", .str "jest")])]),
       ["\"test\": \"jest\""]⟩ 0).1 =
      .ok (some { scriptName := "test", description := .str "Runs tests",
                  command := .str "jest" }) :=
  C5_default_test_docs ⟨false, Except.error ()⟩
    ⟨some (.obj [("scripts", .obj [("test", .str "jest")])]),
     ["\"test\": \"jest\""]⟩ 0
    (.obj [("scripts", .obj [("test", .str "jest")])])
    [("test", .str "jest")] rfl rfl rfl rfl rfl

/-- C10: in the flat provider, the resolved documentation table is the
built-in defaults overridden by the custom file: a script name present
in the custom file resolves to the custom description, and a default
script name absent from the custom file keeps its built-in description.
The Nodup hypothesis records that JSON.parse output has unique keys. -/
theorem C10_custom_overrides (env : LegacyEnv) (custom : List (String × Json))
    (hfound : env.docsFileFound = true)
    (hjson : env.docsFileJson = .ok (.obj custom))
    (hnodup : (custom.map Prod.fst).Nodup) :
    (∀ k v, lookupField custom k = some v →
       lookupField (loadCustomDocsLegacy env none false).1 k = some v) ∧
    (∀ k v, lookupField defaultFields k = some v → lookupField custom k = none →
       lookupField (loadCustomDocsLegacy env none false).1 k = some v) := by
  have hload : (loadCustomDocsLegacy env none false).1 = objAssign defaultFields custom := by
    obtain ⟨found, json⟩ := env
    simp only [LegacyEnv.docsFileFound] at hfound
    simp only [LegacyEnv.docsFileJson] at hjson
    subst hfound
    subst hjson
    rfl
  constructor
  · intro k v hk
    rw [hload, lookupField_objAssign _ _ _ hnodup, hk]
  · intro k v hd hnone
    rw [hload, lookupField_objAssign _ _ _ hnodup, hnone, hd]

/-- Witness for C10 at a concrete input: a custom file documenting build
overrides the built-in build description, while test keeps its default. -/
theorem C10_custom_overrides_witness :
    lookupField (loadCustomDocsLegacy ⟨true, .ok (.obj [("build", .str "B")])⟩
      none false).1 "build" = some (.str "B") ∧
    lookupField (loadCustomDocsLegacy ⟨true, .ok (.obj [("build", .str "B")])⟩
      none false).1 "test" = some (.str "Runs tests") :=
  ⟨(C10_custom_overrides ⟨true, .ok (.obj [("build", .str "B")])⟩
      [("build", .str "B")] rfl rfl (by simp)).1 "build" (.str "B") rfl,
   (C10_custom_overrides ⟨true, .ok (.obj [("build", .str "B")])⟩
      [("build", .str "B")] rfl rfl (by simp)).2 "test" (.str "Runs tests") rfl rfl⟩

/-- C1 (amended): for a valid package.json document with a scripts
object, hovering a line of the form quoted-name colon quoted-command
where the name is a key of scripts returns a non-null hover carrying
exactly that name and that command, provided the mapped command is a
non-empty string (the code rejects falsy values), the name is non-empty
and quote-free (so the line pattern captures it), and the text before
the name holds no quote. -/
theorem C1_hover_hit (env : LegacyEnv) (cached : Option (List (String × Json)))
    (doc : TextDocument) (pos : Nat) (pj : Json) (s : List (String × Json))
    (pre name cmd post : String)
    (hdoc : doc.parseResult = some pj)
    (hs : pj.getProp "scripts" = some (.obj s))
    (hname : lookupField s name = some (.str cmd))
    (hcmd : cmd ≠ "")
    (hname_ne : name ≠ "")
    (hname_q : ∀ c ∈ name.data, c ≠ '"')
    (hpre_q : ∀ c ∈ pre.data, c ≠ '"')
    (hline : doc.lines.getD pos "" =
      pre ++ "\"" ++ name ++ "\": \"" ++ cmd ++ "\"" ++ post) :
    ∃ desc cache2, provideHoverLegacy env cached doc pos =
      (.ok (some { scriptName := name, description := desc,
                   command := .str cmd }), cache2) := by
  have hnull : pj.isNull = false := getProp_isNull_false hs
  have hdata : (pre ++ "\"" ++ name ++ "\": \"" ++ cmd ++ "\"" ++ post).data =
      pre.data ++ '"' :: (name.data ++ '"' :: ':' ::
        (' ' :: '"' :: cmd.data ++ '"' :: post.data)) := by
    simp only [str_data_append]
    simp [List.append_assoc]
  have hkey : firstQuotedKey (pre ++ "\"" ++ name ++ "\": \"" ++ cmd ++ "\"" ++ post) =
      some name := by
    unfold firstQuotedKey
    rw [hdata, firstQuotedKeyAux_append _ _ hpre_q,
      firstQuotedKeyAux_match _ _ (data_ne_nil hname_ne) hname_q]
    simp [string_mk_data]
  have hchain : jsOptionalChain (pj.getProp "scripts") name = some (Json.str cmd) := by
    rw [hs]
    exact getProp_obj_own hname
  have htr : jsTruthyOpt (some (Json.str cmd)) = true := by
    simp [jsTruthyOpt, Json.truthy, hcmd]
  simp only [provideHoverLegacy, hdoc, hline, hkey, hnull, Bool.false_eq_true,
    if_false, hchain, htr, if_true]
  exact ⟨_, _, rfl⟩

/-- C1 counterexample: the claim as stated fails when the script's
command is the empty string. In the document with scripts mapping test
to the empty command, hovering the line of the test entry returns null,
because the code's truthiness test rejects the falsy command, while the
claim demands a non-null result for every key of scripts. -/
theorem C1_hover_hit_counterexample :
    (provideHoverLegacy ⟨false, Except.error ()⟩ none
      ⟨some (.obj [("scripts", .obj [("test", .str "")])]),
       ["\x7b", "  \"scripts\": \x7b", "    \"test\": \"\"", "  \x7d", "\x7d"]⟩
      2).1 = .ok none := rfl

/-- Witness for C1 at a concrete input: an indented build line with a
non-empty command produces the expected hover. -/
theorem C1_hover_hit_witness :
    ∃ desc cache2, provideHoverLegacy ⟨false, Except.error ()⟩ none
      ⟨some (.obj [("scripts", .obj [("build", .str "tsc")])]),
       ["\x7b", "  \"scripts\": \x7b", "    \"build\": \"tsc\"", "  \x7d", "\x7d"]⟩
      2 =
      (.ok (some { scriptName := "build", description := desc,
                   command := .str "tsc" }), cache2) :=
  C1_hover_hit ⟨false, Except.error ()⟩ none
    ⟨some (.obj [("scripts", .obj [("build", .str "tsc")])]),
     ["\x7b", "  \"scripts\": \x7b", "    \"build\": \"tsc\"", "  \x7d", "\x7d"]⟩
    2 (.obj [("scripts", .obj [("build", .str "tsc")])])
    [("build", .str "tsc")] "    " "build" "tsc" ""
    rfl rfl rfl (by decide) (by decide) (by decide) (by decide) rfl

/-- C4 (amended): provideHover returns null whenever the hovered line's
extracted quoted key is neither a key of the document's scripts object
nor the name of an inherited Object.prototype member such as constructor
or toString (in particular whenever no key is extracted); a
prototype-named key with no own scripts entry passes the truthiness
guard through the inherited member and produces a hover. The code
performs no positional check, so a line outside the scripts object
suppresses the hover only through this key test; a line elsewhere in the
file whose key coincides with a script key still produces a hover (see
the counterexample). -/
theorem C4_reject_nonkey (env : LegacyEnv) (cached : Option (List (String × Json)))
    (doc : TextDocument) (pos : Nat) (pj : Json) (s : List (String × Json))
    (hdoc : doc.parseResult = some pj)
    (hs : pj.getProp "scripts" = some (.obj s))
    (hkey : ∀ k, firstQuotedKey (doc.lines.getD pos "") = some k →
       lookupField s k = none ∧ k ∉ objectPrototypeKeys) :
    (provideHoverLegacy env cached doc pos).1 = .ok none := by
  have hnull : pj.isNull = false := getProp_isNull_false hs
  cases hk : firstQuotedKey (doc.lines.getD pos "") with
  | none =>
      simp only [provideHoverLegacy, hdoc]
      rw [hk]
  | some k =>
      have hchain : jsOptionalChain (pj.getProp "scripts") k = none := by
        rw [hs]
        exact getProp_obj_miss (hkey k hk).1 (hkey k hk).2
      simp only [provideHoverLegacy, hdoc]
      rw [hk, hnull]
      simp only [Bool.false_eq_true, if_false, hchain, jsTruthyOpt]

/-- C4 counterexample: in a document whose dependencies object shares the
key build with scripts, hovering the dependencies line (a position
outside the scripts object) yields a non-null hover showing the scripts
entry, while the claim demands null for positions outside the scripts
object. -/
theorem C4_reject_nonkey_counterexample :
    (provideHoverLegacy ⟨false, Except.error ()⟩ none
      ⟨some (.obj [("scripts", .obj [("build", .str "x")]),
                   ("dependencies", .obj [("build", .str "^1.0.0")])]),
       ["\x7b", "  \"scripts\": \x7b", "    \"build\": \"x\"", "  \x7d,",
        "  \"dependencies\": \x7b", "    \"build\": \"^1.0.0\"", "  \x7d", "\x7d"]⟩
      5).1 =
      .ok (some { scriptName := "build",
                  description := .str "Creates a production build",
                  command := .str "x" }) := rfl

/-- Witness for C4 at a concrete input: hovering the version line, whose
key is not a script, yields null. -/
theorem C4_reject_nonkey_witness :
    (provideHoverLegacy ⟨false, Except.error ()⟩ none
      ⟨some (.obj [("scripts", .obj [("build", .str "x")])]),
       ["    \"version\": \"1.0.0\","]⟩ 0).1 = .ok none :=
  C4_reject_nonkey ⟨false, Except.error ()⟩ none
    ⟨some (.obj [("scripts", .obj [("build", .str "x")])]),
     ["    \"version\": \"1.0.0\","]⟩ 0
    (.obj [("scripts", .obj [("build", .str "x")])]) [("build", .str "x")]
    rfl rfl
    (fun k h => by
      have h2 : some "version" = some k := h
      cases h2
      exact ⟨rfl, by decide⟩)

/-- C7 (amended): in the nested provider every load failure (missing
file, read or parse error, or a non-object value, which throws the
invalid-format error into the same handler) returns null and leaves the
documentation cache empty, exactly like clearCache, which the reload
command and the debounced watcher callback invoke. In the flat legacy
provider a load failure instead leaves the cache holding the built-in
defaults (see the counterexample). -/
theorem C7_cache_after_failure :
    (∀ fs : DocsFs, nestedLoadFails fs.docsFile = true →
       loadCustomDocsNested true fs none = (none, fs, none)) ∧
    (∀ cached : Option Json, clearCache cached = none) := by
  constructor
  · intro fs h
    obtain ⟨file, paths⟩ := fs
    cases file with
    | notFound => rfl
    | failed => rfl
    | ok j =>
        cases j with
        | obj fields => simp [nestedLoadFails] at h
        | null => rfl
        | bool b => rfl
        | num n => rfl
        | str s => rfl
        | arr elems => rfl
        | host name => rfl
  · intro cached
    rfl

/-- C7 counterexample: in the flat provider of hoverProvider.ts a failed
read or parse of the documentation file leaves the cache holding the
built-in defaults, not empty, contradicting the claim that a load error
leaves the cache empty. -/
theorem C7_cache_after_failure_counterexample :
    (loadCustomDocsLegacy ⟨true, Except.error ()⟩ none false).2 = some defaultFields ∧
    (loadCustomDocsLegacy ⟨true, Except.error ()⟩ none false).2 ≠ none := by
  refine ⟨rfl, ?_⟩
  intro h
  rw [show (loadCustomDocsLegacy ⟨true, Except.error ()⟩ none false).2 =
    some defaultFields from rfl] at h
  exact Option.noConfusion h

/-- Witness for C7 at a concrete input: a read error in the nested
provider returns null and empties the cache. -/
theorem C7_cache_after_failure_witness :
    loadCustomDocsNested true ⟨.failed, []⟩ none = (none, ⟨.failed, []⟩, none) :=
  C7_cache_after_failure.1 ⟨.failed, []⟩ rfl

/-- C2: loading a documentation file whose parsed content has the legacy
flat shape rewrites the file to the nested shape: the original object
wrapped under "package.json", followed only by empty-object entries for
the other discovered package.json paths, each such path getting one; and
a second load of the migrated file (even with the cache cleared) leaves
the file untouched, so the migration rewrites the file exactly once. -/
theorem C2_migration (fs : DocsFs) (raw : Json)
    (hfile : fs.docsFile = .ok raw)
    (hlegacy : looksLikeOldStructure raw = true) :
    ∃ tail,
      loadCustomDocsNested true fs none =
        (some (.obj (("package.json", raw) :: tail)),
         { fs with docsFile := .ok (.obj (("package.json", raw) :: tail)) },
         some (.obj (("package.json", raw) :: tail))) ∧
      (∀ p ∈ tail, p.2 = Json.obj [] ∧ p.1 ∈ fs.packageJsonPaths ∧
         p.1 ≠ "package.json") ∧
      (∀ rp ∈ fs.packageJsonPaths, rp ≠ "package.json" →
         lookupField (("package.json", raw) :: tail) rp = some (.obj [])) ∧
      loadCustomDocsNested true
        { fs with docsFile := .ok (.obj (("package.json", raw) :: tail)) } none =
        (some (.obj (("package.json", raw) :: tail)),
         { fs with docsFile := .ok (.obj (("package.json", raw) :: tail)) },
         some (.obj (("package.json", raw) :: tail))) := by
  obtain ⟨tail, heq, hprops⟩ :=
    migrateFold_shape fs.packageJsonPaths raw [] (by simp)
  have hmig : migrateStructure raw fs.packageJsonPaths =
      ("package.json", raw) :: tail := heq
  have htail : ∀ p ∈ tail, p.2 = Json.obj [] ∧ p.1 ∈ fs.packageJsonPaths ∧
      p.1 ≠ "package.json" := by
    intro p hp
    obtain ⟨h1, h2⟩ := hprops p hp
    rcases h2 with h2 | h2
    · simp at h2
    · exact ⟨h1, h2.1, h2.2⟩
  have hlook : ∀ rp ∈ fs.packageJsonPaths, rp ≠ "package.json" →
      lookupField (("package.json", raw) :: tail) rp = some (.obj []) := by
    intro rp hrp hne
    have hnn := migrateFold_mem fs.packageJsonPaths [("package.json", raw)] rp hrp hne
    rw [heq] at hnn
    cases hv : lookupField (("package.json", raw) :: tail) rp with
    | none => exact absurd hv hnn
    | some v =>
        have hmem := lookupField_mem hv
        rcases List.mem_cons.mp hmem with h1 | h1
        · exfalso
          apply hne
          have : rp = "package.json" ∧ v = raw := by
            constructor
            · exact congrArg Prod.fst h1
            · exact congrArg Prod.snd h1
          exact this.1
        · have hv2 : v = Json.obj [] := (htail _ h1).1
          rw [hv2]
  have hload1 : loadCustomDocsNested true fs none =
      (some (.obj (("package.json", raw) :: tail)),
       { fs with docsFile := .ok (.obj (("package.json", raw) :: tail)) },
       some (.obj (("package.json", raw) :: tail))) := by
    simp only [loadCustomDocsNested, jsTruthyOpt, Bool.false_eq_true, if_false,
      Bool.not_true, hfile, hlegacy, if_true, hmig]
  have hfalse : looksLikeOldStructure (.obj (("package.json", raw) :: tail)) = false :=
    looksLike_cons_pj raw tail
  have hload2 : loadCustomDocsNested true
      { fs with docsFile := .ok (.obj (("package.json", raw) :: tail)) } none =
      (some (.obj (("package.json", raw) :: tail)),
       { fs with docsFile := .ok (.obj (("package.json", raw) :: tail)) },
       some (.obj (("package.json", raw) :: tail))) := by
    simp only [loadCustomDocsNested, jsTruthyOpt, Bool.false_eq_true, if_false,
      Bool.not_true, hfalse]
  exact ⟨tail, hload1, htail, hlook, hload2⟩

/-- Witness for C2 at a concrete input: a legacy file mapping dev and
build, in a workspace with the root package.json and one nested package,
migrates to the wrapped shape with one empty entry and is stable on the
second load. -/
theorem C2_migration_witness :
    ∃ tail,
      loadCustomDocsNested true
        ⟨.ok (.obj [("dev", .str "x"), ("build", .str "y")]),
         ["package.json", "packages/a/package.json"]⟩ none =
        (some (.obj (("package.json",
            .obj [("dev", .str "x"), ("build", .str "y")]) :: tail)),
         { docsFile := .ok (.obj (("package.json",
             .obj [("dev", .str "x"), ("build", .str "y")]) :: tail)),
           packageJsonPaths := ["package.json", "packages/a/package.json"] },
         some (.obj (("package.json",
            .obj [("dev", .str "x"), ("build", .str "y")]) :: tail))) ∧
      (∀ p ∈ tail, p.2 = Json.obj [] ∧
         p.1 ∈ ["package.json", "packages/a/package.json"] ∧
         p.1 ≠ "package.json") ∧
      (∀ rp ∈ ["package.json", "packages/a/package.json"],
         rp ≠ "package.json" →
         lookupField (("package.json",
             .obj [("dev", .str "x"), ("build", .str "y")]) :: tail) rp =
           some (.obj [])) ∧
      loadCustomDocsNested true
        { docsFile := .ok (.obj (("package.json",
            .obj [("dev", .str "x"), ("build", .str "y")]) :: tail)),
          packageJsonPaths := ["package.json", "packages/a/package.json"] } none =
        (some (.obj (("package.json",
            .obj [("dev", .str "x"), ("build", .str "y")]) :: tail)),
         { docsFile := .ok (.obj (("package.json",
             .obj [("dev", .str "x"), ("build", .str "y")]) :: tail)),
           packageJsonPaths := ["package.json", "packages/a/package.json"] },
         some (.obj (("package.json",
            .obj [("dev", .str "x"), ("build", .str "y")]) :: tail))) :=
  C2_migration
    ⟨.ok (.obj [("dev", .str "x"), ("build", .str "y")]),
     ["package.json", "packages/a/package.json"]⟩
    (.obj [("dev", .str "x"), ("build", .str "y")]) rfl rfl

/-- C3 (amended): when regenerating the documentation from the
workspace's package.json files (with their distinct discovered paths),
for every script of a parsed file with a truthy scripts object the
stored description is whatever the existing-description read yields when
that is truthy (an own prior entry, or an inherited Object.prototype
member for a script named constructor, toString, ...), and otherwise the
synthesized template naming the script, the relative path and the
command; in particular a truthy existing description such as "old desc"
is never overwritten (an existing but falsy description, such as the
empty string, is replaced by the template — see the counterexample). A
file whose scripts value is not truthy keeps its truthy existing entry,
and gets an empty entry when it has none. The template and empty-entry
parts restrict the prior documentation to a JSON object with object or
null package entries: for such data the modelled property reads,
including the Object.prototype layer, are the complete JS semantics, and
a null parsed package.json (which throws into the per-file error
handler) is excluded. -/
theorem C3_regeneration_merge :
    (∀ (ex : Json) (files : List PkgFile) (f : PkgFile) (pj : Json)
       (s : List (String × Json)) (name : String) (cmd d : Json),
      (files.map PkgFile.relativePath).Nodup → f ∈ files →
      f.content = .ok pj → pj.getProp "scripts" = some (.obj s) →
      lookupField s name = some cmd →
      jsOptionalChain (ex.getProp f.relativePath) name = some d →
      d.truthy = true →
      lookup2 (updateScriptDocsForWorkspace ex files) f.relativePath name =
        some d) ∧
    (∀ (ex : Json) (files : List PkgFile) (f : PkgFile) (pj : Json)
       (s : List (String × Json)) (name : String) (cmd : Json),
      (files.map PkgFile.relativePath).Nodup → f ∈ files →
      f.content = .ok pj → pj.getProp "scripts" = some (.obj s) →
      lookupField s name = some cmd →
      (∃ exfields, ex = Json.obj exfields) →
      (∀ e, ex.getProp f.relativePath = some e →
         e = Json.null ∨ ∃ efields, e = Json.obj efields) →
      jsTruthyOpt (jsOptionalChain (ex.getProp f.relativePath) name) = false →
      lookup2 (updateScriptDocsForWorkspace ex files) f.relativePath name =
        some (.str (scriptTemplate name f.relativePath cmd))) ∧
    (∀ (ex : Json) (files : List PkgFile) (f : PkgFile) (pj : Json) (e : Json),
      (files.map PkgFile.relativePath).Nodup → f ∈ files →
      f.content = .ok pj → jsTruthyOpt (pj.getProp "scripts") = false →
      ex.getProp f.relativePath = some e → e.truthy = true →
      lookupField (updateScriptDocsForWorkspace ex files) f.relativePath =
        some e) ∧
    (∀ (ex : Json) (files : List PkgFile) (f : PkgFile) (pj : Json),
      (files.map PkgFile.relativePath).Nodup → f ∈ files →
      f.content = .ok pj → pj.isNull = false →
      jsTruthyOpt (pj.getProp "scripts") = false →
      (∃ exfields, ex = Json.obj exfields) →
      jsTruthyOpt (ex.getProp f.relativePath) = false →
      lookupField (updateScriptDocsForWorkspace ex files) f.relativePath =
        some (.obj [])) := by
  have hmain : ∀ (ex : Json) (files : List PkgFile) (f : PkgFile),
      (files.map PkgFile.relativePath).Nodup → f ∈ files →
      lookupField (updateScriptDocsForWorkspace ex files) f.relativePath =
        some (entryForFile ex f) ∨
      (entryForFile ex f).truthy = false := by
    intro ex files f hnodup hf
    by_cases ht : (entryForFile ex f).truthy = true
    · left
      have hl : lookupField (files.foldl (processFile ex) []) f.relativePath =
          some (entryForFile ex f) :=
        updateLoop_lookup_aux ex files [] f hnodup hf rfl
      have htr : jsTruthyOpt (lookupField (files.foldl (processFile ex) [])
          f.relativePath) = true := by
        rw [hl]
        exact ht
      unfold updateScriptDocsForWorkspace
      rw [mergeMissing_preserve _ _ _ htr, hl]
    · right
      exact Bool.eq_false_iff.mpr ht
  refine ⟨?_, ?_, ?_, ?_⟩
  · intro ex files f pj s name cmd d hnodup hf hc hs hname hd hdt
    have htrue : jsTruthyOpt (some (Json.obj s)) = true := rfl
    have hentry : entryForFile ex f =
        .obj ((jsKeys (.obj s)).foldl
          (fun fields n =>
            setField fields n (descFor ex f.relativePath (.obj s) n)) []) := by
      simp only [entryForFile, hc, hs, htrue, if_true, Option.getD]
    have hup : lookupField (updateScriptDocsForWorkspace ex files)
        f.relativePath = some (entryForFile ex f) := by
      rcases hmain ex files f hnodup hf with h | h
      · exact h
      · rw [hentry] at h
        simp [Json.truthy] at h
    have hmem : name ∈ jsKeys (.obj s) := mem_keys_of_lookupField hname
    have hinner : lookupField ((jsKeys (.obj s)).foldl
        (fun fields n =>
          setField fields n (descFor ex f.relativePath (.obj s) n)) []) name =
        some (descFor ex f.relativePath (.obj s) name) :=
      foldSet_lookup_mem _ _ _ _ hmem
    have hdesc : descFor ex f.relativePath (.obj s) name = d := by
      simp only [descFor, hd, hdt, if_true]
    simp only [lookup2, hup, hentry, hinner, hdesc]
  · intro ex files f pj s name cmd hnodup hf hc hs hname hexobj hentries hfalse
    have htrue : jsTruthyOpt (some (Json.obj s)) = true := rfl
    have hentry : entryForFile ex f =
        .obj ((jsKeys (.obj s)).foldl
          (fun fields n =>
            setField fields n (descFor ex f.relativePath (.obj s) n)) []) := by
      simp only [entryForFile, hc, hs, htrue, if_true, Option.getD]
    have hup : lookupField (updateScriptDocsForWorkspace ex files)
        f.relativePath = some (entryForFile ex f) := by
      rcases hmain ex files f hnodup hf with h | h
      · exact h
      · rw [hentry] at h
        simp [Json.truthy] at h
    have hmem : name ∈ jsKeys (.obj s) := mem_keys_of_lookupField hname
    have hinner : lookupField ((jsKeys (.obj s)).foldl
        (fun fields n =>
          setField fields n (descFor ex f.relativePath (.obj s) n)) []) name =
        some (descFor ex f.relativePath (.obj s) name) :=
      foldSet_lookup_mem _ _ _ _ hmem
    have hdesc : descFor ex f.relativePath (.obj s) name =
        .str (scriptTemplate name f.relativePath cmd) := by
      have hg : (Json.obj s).getProp name = some cmd := getProp_obj_own hname
      cases hoc : jsOptionalChain (ex.getProp f.relativePath) name with
      | none => simp only [descFor, hoc, hg, Option.getD]
      | some d =>
          rw [hoc] at hfalse
          simp only [descFor, hoc, hg, Option.getD]
          rw [show (jsTruthyOpt (some d) : Bool) = d.truthy from rfl] at hfalse
          simp [hfalse]
    simp only [lookup2, hup, hentry, hinner, hdesc]
  · intro ex files f pj e hnodup hf hc hsf hex het
    have hentry : entryForFile ex f = e := by
      simp only [entryForFile, hc, hsf, Bool.false_eq_true, if_false, hex, het,
        if_true]
    rcases hmain ex files f hnodup hf with h | h
    · rw [h, hentry]
    · rw [hentry] at h
      rw [het] at h
      exact absurd h (by simp)
  · intro ex files f pj hnodup hf hc hpjn hsf hexobj hexf
    have hentry : entryForFile ex f = .obj [] := by
      cases hex : ex.getProp f.relativePath with
      | none => simp only [entryForFile, hc, hsf, Bool.false_eq_true, if_false, hex]
      | some e =>
          rw [hex] at hexf
          have he : e.truthy = false := hexf
          simp only [entryForFile, hc, hsf, Bool.false_eq_true, if_false, hex, he]
    rcases hmain ex files f hnodup hf with h | h
    · rw [h, hentry]
    · rw [hentry] at h
      simp [Json.truthy] at h

/-- C3 counterexample: an existing description that is present but falsy
(the empty string) is not kept: regenerating over a package.json whose
build script maps to tsc replaces the empty existing description with
the synthesized template, while the claim demands that any present
existing description be kept. -/
theorem C3_regeneration_merge_counterexample :
    lookup2 (updateScriptDocsForWorkspace
      (.obj [("package.json", .obj [("build", .str "")])])
      [⟨"package.json", .ok (.obj [("scripts", .obj [("build", .str "tsc")])])⟩])
      "package.json" "build" =
      some (.str (scriptTemplate "build" "package.json" (.str "tsc"))) ∧
    lookup2 (updateScriptDocsForWorkspace
      (.obj [("package.json", .obj [("build", .str "")])])
      [⟨"package.json", .ok (.obj [("scripts", .obj [("build", .str "tsc")])])⟩])
      "package.json" "build" ≠ some (.str "") := by
  refine ⟨rfl, ?_⟩
  rw [show lookup2 (updateScriptDocsForWorkspace
      (.obj [("package.json", .obj [("build", .str "")])])
      [⟨"package.json", .ok (.obj [("scripts", .obj [("build", .str "tsc")])])⟩])
      "package.json" "build" =
      some (.str (scriptTemplate "build" "package.json" (.str "tsc"))) from rfl]
  intro h
  injection h with h1
  injection h1 with h2
  have hne : scriptTemplate "build" "package.json" (.str "tsc") ≠ "" := by decide
  exact hne h2

/-- Witness for C3 at a concrete input: a truthy existing description
"old desc" for the build script survives regeneration. -/
theorem C3_regeneration_merge_witness :
    lookup2 (updateScriptDocsForWorkspace
      (.obj [("package.json", .obj [("build", .str "old desc")])])
      [⟨"package.json", .ok (.obj [("scripts", .obj [("build", .str "tsc")])])⟩])
      "package.json" "build" = some (.str "old desc") :=
  C3_regeneration_merge.1
    (.obj [("package.json", .obj [("build", .str "old desc")])])
    [⟨"package.json", .ok (.obj [("scripts", .obj [("build", .str "tsc")])])⟩]
    ⟨"package.json", .ok (.obj [("scripts", .obj [("build", .str "tsc")])])⟩
    (.obj [("scripts", .obj [("build", .str "tsc")])])
    [("build", .str "tsc")] "build" (.str "tsc") (.str "old desc")
    (by simp) (by simp) rfl rfl rfl rfl rfl
